import Mathlib

/-!
Verification development for the agent-memory repository: a shallow
embedding of the SQLite-backed memory store (src/agent_memory/store.py),
the category classifier (utils.py), the pruning engine (pruning.py), the
descendant-project resolver (config.py), the event log (event_log.py) and
the access-recording helper of the CLI (cli.py), together with theorems
about the behaviour the specification describes.

Modelling conventions: timestamps are natural numbers (ISO 8601 strings of
aware UTC datetimes compare lexicographically exactly like the instants
they denote, so SQL string comparison and datetime comparison agree);
database tables are lists of rows in insertion order; operations that can
raise return Except String; get_timestamp() and generate_memory_id() are
passed in as explicit arguments; metadata stands for its serialized JSON
text.
-/

namespace AgentMemory

/-- Lowercase a string character by character: models Python str.lower and
the ASCII case folding SQLite applies to LIKE. -/
def strLower (s : String) : String := ⟨s.data.map Char.toLower⟩

/-- Whether the first character list is an initial segment of the second. -/
def headChars : List Char → List Char → Bool
  | [], _ => true
  | _ :: _, [] => false
  | a :: as, b :: bs => a == b && headChars as bs

/-- Whether the first character list occurs contiguously inside the second. -/
def occursChars (needle : List Char) : List Char → Bool
  | [] => needle.isEmpty
  | b :: bs => headChars needle (b :: bs) || occursChars needle bs

/-- Substring containment: models the Python expression needle in hay. -/
def containsSub (hay needle : String) : Bool := occursChars needle.toList hay.toList

/-- Models the SQL filter content LIKE the query wrapped in percent signs:
case-insensitive containment of the whole query text taken as one pattern
(the queries considered here hold no LIKE wildcard characters). -/
def likeMatch (content query : String) : Bool :=
  containsSub (strLower content) (strLower query)

/-- Splitting a character list on whitespace, dropping empty runs; cur holds
the characters of the current token in reverse. -/
def splitWsAux : List Char → List Char → List String
  | [], cur => if cur.isEmpty then [] else [String.mk cur.reverse]
  | c :: cs, cur =>
      if c.isWhitespace then
        if cur.isEmpty then splitWsAux cs []
        else String.mk cur.reverse :: splitWsAux cs []
      else splitWsAux cs (c :: cur)

/-- Python str.split() with no argument: split on whitespace runs, no empty
parts. -/
def splitWs (s : String) : List String := splitWsAux s.data []

/-- utils.detect_category: decision indicator keywords. -/
def decision_keywords : List String :=
  ["prefer", "chose", "decided", "rejected", "instead of", "rather than",
   "don\x27t use", "always use", "never use", "should use", "shouldn\x27t"]

/-- utils.detect_category: task history indicator keywords. -/
def task_keywords : List String :=
  ["completed", "implemented", "fixed", "added", "removed",
   "refactored", "updated", "created", "deployed", "migrated"]

/-- utils.detect_category: session summary indicator keywords. -/
def summary_keywords : List String :=
  ["session", "summary", "discussed", "covered", "worked on",
   "today we", "in this session"]

/-- utils.detect_category: lowercase the content, check the three keyword
lists in order, default to factual. -/
def detect_category (content : String) : String :=
  let content_lower := strLower content
  if decision_keywords.any (fun k => containsSub content_lower k) then "decision"
  else if task_keywords.any (fun k => containsSub content_lower k) then "task_history"
  else if summary_keywords.any (fun k => containsSub content_lower k) then "session_summary"
  else "factual"

/-- utils.is_valid_category. -/
def is_valid_category (category : String) : Bool :=
  category == "factual" || category == "decision" || category == "task_history" ||
    category == "session_summary"

/-- utils.normalize_category: keep a valid caller-supplied category,
auto-detect otherwise. -/
def normalize_category (category : Option String) (content : String) : String :=
  match category with
  | none => detect_category content
  | some c => if is_valid_category c then c else detect_category content

/-- utils.is_expired at an explicit current time. -/
def is_expired (now : Nat) : Option Nat → Bool
  | none => false
  | some e => e < now

/-- A keyword of the list occurs in the lowercased content. -/
def keyword_hit (ks : List String) (content : String) : Prop :=
  ∃ k ∈ ks, containsSub (strLower content) k = true

instance (ks : List String) (content : String) : Decidable (keyword_hit ks content) := by
  unfold keyword_hit
  infer_instance

/-- store.Memory: one row of a memories table. groups and metadata are kept
as values (their JSON serialization round-trips through
serialize_metadata/deserialize_metadata); metadata stands for its
serialized text. -/
structure Memory where
  id : String
  content : String
  category : String
  scope : String
  project_path : Option String
  pinned : Bool
  groups : List String
  created_at : Nat
  updated_at : Nat
  expires_at : Option Nat
  source : String
  metadata : String
  access_count : Nat
  last_accessed_at : Option Nat
deriving Repr, DecidableEq

/-- The state a MemoryStore instance touches: the rows of the global
database file, the rows of the current project database file, the bound
project path, and the row lists of the descendant project database files
that _descendant_db_paths enumerates. Rows are in insertion order. -/
structure StoreState where
  globalDB : List Memory
  projectDB : List Memory
  project_path : Option String
  descendantDBs : List (List Memory)
deriving Repr, DecidableEq

/-- Which of the two database files a connection touches. -/
inductive DbFile
  | globalFile
  | projectFile
deriving Repr, DecidableEq

/-- store.MemoryStore._get_conn: global and group scope use the global
database, every other scope string the project database. -/
def dbFile_for (scope : String) : DbFile :=
  if scope == "global" || scope == "group" then .globalFile else .projectFile

/-- The rows of one database file. -/
def fileRows (s : StoreState) : DbFile → List Memory
  | .globalFile => s.globalDB
  | .projectFile => s.projectDB

/-- Opening the connection of a file: _get_project_conn raises ValueError
when no project path is set. -/
def getDb (s : StoreState) : DbFile → Except String (List Memory)
  | .globalFile => .ok s.globalDB
  | .projectFile =>
      match s.project_path with
      | none => .error "No project path set"
      | some _ => .ok s.projectDB

/-- Writing the rows of one database file back. -/
def setDb (s : StoreState) : DbFile → List Memory → StoreState
  | .globalFile, rows => { s with globalDB := rows }
  | .projectFile, rows => { s with projectDB := rows }

/-- Insert into a list already sorted descending by the key, keeping scan
order among equal keys. -/
def insertKeyDesc (key : Memory → Nat) (m : Memory) : List Memory → List Memory
  | [] => [m]
  | x :: xs => if key x ≤ key m then m :: x :: xs else x :: insertKeyDesc key m xs

/-- Sort descending by the key (models an ORDER BY key DESC clause; ties
keep scan order, a modelling choice no claim depends on). -/
def sortKeyDesc (key : Memory → Nat) : List Memory → List Memory
  | [] => []
  | x :: xs => insertKeyDesc key x (sortKeyDesc key xs)

/-- ORDER BY created_at DESC. -/
def sortCreatedDesc : List Memory → List Memory :=
  sortKeyDesc (fun m => m.created_at)

/-- ORDER BY access_count DESC. -/
def sortAccessDesc : List Memory → List Memory :=
  sortKeyDesc (fun m => m.access_count)

/-- The repeated Python comprehension dropping rows whose expires_at is in
the past. -/
def dropExpired (now : Nat) (rows : List Memory) : List Memory :=
  rows.filter (fun m => !is_expired now m.expires_at)

/-- Python truthiness of an optional string argument. -/
def optStrGiven : Option String → Bool
  | none => false
  | some c => !(c == "")

/-- Python truthiness of the optional groups argument. -/
def groupsGiven : Option (List String) → Bool
  | none => false
  | some [] => false
  | some (_ :: _) => true

/-- store.MemoryStore.save. now and memory_id stand for get_timestamp()
and generate_memory_id(); metadata is the serialized JSON text, already
defaulted. The row is appended to the file of the scope; note the source
stores the groups argument whatever the scope is. -/
def save (s : StoreState) (now : Nat) (memory_id : String) (content : String)
    (category : Option String) (scope : String) (pinned : Bool) (source : String)
    (metadata : String) (expires_at : Option Nat) (groups : Option (List String)) :
    Except String (StoreState × Memory) :=
  let category := normalize_category category content
  let groups := groups.getD []
  if !(scope == "project" || scope == "group" || scope == "global") then
    .error ("Invalid scope: " ++ scope)
  else if scope == "group" && groups.isEmpty then
    .error "Group scope requires at least one group"
  else
    let db_scope := if scope == "group" || scope == "global" then "global" else "project"
    match getDb s (dbFile_for db_scope) with
    | .error e => .error e
    | .ok rows =>
        let m : Memory :=
          { id := memory_id, content := content, category := category, scope := scope,
            project_path := s.project_path, pinned := pinned, groups := groups,
            created_at := now, updated_at := now, expires_at := expires_at,
            source := source, metadata := metadata, access_count := 0,
            last_accessed_at := none }
        .ok (setDb s (dbFile_for db_scope) (rows ++ [m]), m)

/-- store.MemoryStore.get: SELECT by id, first row or none; no expiry
filtering. -/
def get (s : StoreState) (memory_id scope : String) : Except String (Option Memory) :=
  match getDb s (dbFile_for scope) with
  | .error e => .error e
  | .ok rows => .ok (rows.find? (fun m => m.id == memory_id))

/-- store.MemoryStore.get_by_id: try the project file first when a project
path is bound, then the global file. -/
def get_by_id (s : StoreState) (memory_id : String) : Except String (Option Memory) :=
  match s.project_path with
  | some _ =>
      match get s memory_id "project" with
      | .error e => .error e
      | .ok (some m) => .ok (some m)
      | .ok none => get s memory_id "global"
  | none => get s memory_id "global"

/-- store.MemoryStore.list: scope column filter on the global file, category
and pinned filters, ORDER BY created_at DESC, LIMIT, then the Python-side
expiry filter unless include_expired. -/
def list (s : StoreState) (now : Nat) (scope : String) (category : Option String)
    (pinned_only : Bool) (limit : Nat) (include_expired : Bool) :
    Except String (List Memory) :=
  match getDb s (dbFile_for scope) with
  | .error e => .error e
  | .ok rows =>
      let rows := if scope == "group" || scope == "global" then
          rows.filter (fun m => m.scope == scope) else rows
      let rows := if optStrGiven category then
          rows.filter (fun m => category == some m.category) else rows
      let rows := if pinned_only then rows.filter (fun m => m.pinned) else rows
      let rows := (sortCreatedDesc rows).take limit
      .ok (if include_expired then rows else dropExpired now rows)

/-- store.MemoryStore.list_by_group: rows of the global file with
scope=group, category and pinned filters, ORDER BY created_at DESC, LIMIT,
then the Python-side owner-group filter and expiry filter. -/
def list_by_group (s : StoreState) (now : Nat) (group_name : Option String)
    (pinned_only : Bool) (category : Option String) (limit : Nat)
    (include_expired : Bool) : List Memory :=
  let rows := s.globalDB.filter (fun m => m.scope == "group")
  let rows := if optStrGiven category then
      rows.filter (fun m => category == some m.category) else rows
  let rows := if pinned_only then rows.filter (fun m => m.pinned) else rows
  let rows := (sortCreatedDesc rows).take limit
  let rows := match group_name with
    | none => rows
    | some g =>
        if !(g == "") && !(strLower g == "all") then
          rows.filter (fun m => m.groups.contains g)
        else rows
  if include_expired then rows else dropExpired now rows

/-- store.MemoryStore.search_keyword: one SELECT with content LIKE the whole
query wrapped in percent signs, ORDER BY created_at DESC, LIMIT, then the
Python-side expiry filter (no include_expired opt-in exists here). -/
def search_keyword (s : StoreState) (now : Nat) (query scope : String) (limit : Nat) :
    Except String (List Memory) :=
  match getDb s (dbFile_for scope) with
  | .error e => .error e
  | .ok rows =>
      dropExpired now ((sortCreatedDesc (rows.filter (fun m => likeMatch m.content query))).take limit)
        |> .ok

/-- The search rule the spec states for search_keyword, written from the
spec words: split the query on whitespace; an empty or whitespace-only
query returns the empty list; otherwise return the non-expired rows whose
content contains every token case-insensitively, newest first, truncated
to limit. -/
def search_keyword_spec (s : StoreState) (now : Nat) (query scope : String)
    (limit : Nat) : List Memory :=
  let tokens := splitWs query
  if tokens.isEmpty then []
  else
    match getDb s (dbFile_for scope) with
    | .error _ => []
    | .ok rows =>
        let rows := rows.filter (fun m =>
          !is_expired now m.expires_at &&
            tokens.all (fun t => containsSub (strLower m.content) (strLower t)))
        (sortCreatedDesc rows).take limit

/-- The add_unique closure of search_with_groups: append the memories whose
id was not seen yet and that are not expired. -/
def addUnique (now : Nat) (acc : List Memory) (ms : List Memory) : List Memory :=
  ms.foldl (fun acc m =>
    if acc.any (fun r => r.id == m.id) || is_expired now m.expires_at then acc
    else acc ++ [m]) acc

/-- The project leg of search_with_groups (the connection cannot fail here:
the leg only runs when a project path is bound). -/
def swgProjectLeg (s : StoreState) (now : Nat) (query : String) (limit : Nat) :
    List Memory :=
  match search_keyword s now query "project" limit with
  | .ok l => l
  | .error _ => []

/-- The global leg of search_with_groups. -/
def swgGlobalLeg (s : StoreState) (now : Nat) (query : String) (limit : Nat) :
    List Memory :=
  match search_keyword s now query "global" limit with
  | .ok l => l
  | .error _ => []

/-- The group leg of search_with_groups: group rows matched in Python
against the lowercased query, then against the listed group names unless
one of them lowercases to all. -/
def swgGroupLeg (s : StoreState) (now : Nat) (query : String) (gs : List String)
    (limit : Nat) : List Memory :=
  let group_memories := list_by_group s now none false none (limit * 2) false
  let matching := group_memories.filter
    (fun m => containsSub (strLower m.content) (strLower query))
  if (gs.map strLower).contains "all" then matching
  else matching.filter (fun m => gs.any (fun g => m.groups.contains g))

/-- store.MemoryStore.search_with_groups: project leg, global leg, group
leg, deduplicated by id with expiry suppression in add_unique, sorted by
created_at descending, truncated. -/
def search_with_groups (s : StoreState) (now : Nat) (query : String)
    (include_project include_global : Bool) (include_groups : Option (List String))
    (limit : Nat) : List Memory :=
  let results : List Memory := []
  let results := if include_project && s.project_path.isSome then
      addUnique now results (swgProjectLeg s now query limit)
    else results
  let results := if include_global then
      addUnique now results (swgGlobalLeg s now query limit)
    else results
  let results := match include_groups with
    | none => results
    | some [] => results
    | some gs => addUnique now results (swgGroupLeg s now query gs limit)
  (sortCreatedDesc results).take limit

/-- store.MemoryStore._descendant_db_paths: empty without a project path,
otherwise the row lists of the descendant database files. -/
def descendant_dbs (s : StoreState) : List (List Memory) :=
  match s.project_path with
  | none => []
  | some _ => s.descendantDBs

/-- store.MemoryStore._query_db_file applied to the rows of one file:
category and pinned filters, ORDER BY created_at DESC, LIMIT, expiry filter
(always). -/
def query_db_file (now : Nat) (rows : List Memory) (category : Option String)
    (pinned_only : Bool) (limit : Nat) : List Memory :=
  let rows := if optStrGiven category then
      rows.filter (fun m => category == some m.category) else rows
  let rows := if pinned_only then rows.filter (fun m => m.pinned) else rows
  dropExpired now ((sortCreatedDesc rows).take limit)

/-- store.MemoryStore._search_db_file applied to the rows of one file. -/
def search_db_file (now : Nat) (rows : List Memory) (query : String) (limit : Nat) :
    List Memory :=
  dropExpired now ((sortCreatedDesc (rows.filter (fun m => likeMatch m.content query))).take limit)

/-- The seen_ids deduplicating append of the descendant aggregators (no
expiry check of its own). -/
def dedupAppend (acc : List Memory) (ms : List Memory) : List Memory :=
  ms.foldl (fun acc m => if acc.any (fun r => r.id == m.id) then acc else acc ++ [m]) acc

/-- store.MemoryStore.list_with_descendants: the current project list (an
exception there is swallowed), then each descendant file through
_query_db_file, deduplicated by id, sorted by created_at descending,
truncated. -/
def list_with_descendants (s : StoreState) (now : Nat) (category : Option String)
    (pinned_only : Bool) (limit : Nat) (include_expired : Bool) : List Memory :=
  let current := match list s now "project" category pinned_only limit include_expired with
    | .ok l => l
    | .error _ => []
  let all := dedupAppend [] current
  let all := (descendant_dbs s).foldl
    (fun acc rows => dedupAppend acc (query_db_file now rows category pinned_only limit)) all
  (sortCreatedDesc all).take limit

/-- store.MemoryStore.search_with_descendants. -/
def search_with_descendants (s : StoreState) (now : Nat) (query : String) (limit : Nat) :
    List Memory :=
  let current := match search_keyword s now query "project" limit with
    | .ok l => l
    | .error _ => []
  let all := dedupAppend [] current
  let all := (descendant_dbs s).foldl
    (fun acc rows => dedupAppend acc (search_db_file now rows query limit)) all
  (sortCreatedDesc all).take limit

/-- store.MemoryStore.get_most_accessed: rows with access_count above zero
(scope column filter on the global file), ORDER BY access_count DESC,
LIMIT; no expiry filtering at all. -/
def get_most_accessed (s : StoreState) (scope : String) (limit : Nat) :
    Except String (List Memory) :=
  match getDb s (dbFile_for scope) with
  | .error e => .error e
  | .ok rows =>
      let rows := rows.filter (fun m => 0 < m.access_count)
      let rows := if scope == "group" || scope == "global" then
          rows.filter (fun m => m.scope == scope) else rows
      .ok ((sortAccessDesc rows).take limit)

/-- store.MemoryStore.get_pin_candidates: unpinned rows with access_count at
least min_access (scope column filter on the global file), ORDER BY
access_count DESC, LIMIT; no expiry filtering at all. -/
def get_pin_candidates (s : StoreState) (scope : String) (min_access : Nat)
    (limit : Nat) : Except String (List Memory) :=
  match getDb s (dbFile_for scope) with
  | .error e => .error e
  | .ok rows =>
      let rows := rows.filter (fun m => min_access ≤ m.access_count && m.pinned == false)
      let rows := if scope == "group" || scope == "global" then
          rows.filter (fun m => m.scope == scope) else rows
      .ok ((sortAccessDesc rows).take limit)

/-- The UPDATE of record_access on one row list. -/
def bumpAccess (now : Nat) (memory_id : String) (rows : List Memory) : List Memory :=
  rows.map (fun m =>
    if m.id == memory_id then
      { m with access_count := m.access_count + 1, last_accessed_at := some now }
    else m)

/-- store.MemoryStore.record_access: no try/except of its own, so a failing
connection (for example project scope with no project path) propagates the
error. -/
def record_access (s : StoreState) (now : Nat) (memory_id scope : String) :
    Except String StoreState :=
  match getDb s (dbFile_for scope) with
  | .error e => .error e
  | .ok rows => .ok (setDb s (dbFile_for scope) (bumpAccess now memory_id rows))

/-- store.MemoryStore.record_access_batch: returns at once on an empty id
list (before touching any connection), otherwise updates each id; again no
try/except of its own. -/
def record_access_batch (s : StoreState) (now : Nat) (memory_ids : List String)
    (scope : String) : Except String StoreState :=
  if memory_ids.isEmpty then .ok s
  else
    match getDb s (dbFile_for scope) with
    | .error e => .error e
    | .ok rows =>
        .ok (setDb s (dbFile_for scope)
          (memory_ids.foldl (fun rows i => bumpAccess now i rows) rows))

/-- store.MemoryStore.delete: DELETE by id, result tells whether a row went
away. -/
def delete (s : StoreState) (memory_id scope : String) :
    Except String (StoreState × Bool) :=
  match getDb s (dbFile_for scope) with
  | .error e => .error e
  | .ok rows =>
      let remaining := rows.filter (fun m => !(m.id == memory_id))
      .ok (setDb s (dbFile_for scope) remaining, remaining.length < rows.length)

/-- store.MemoryStore.set_scope: same file means one in-place UPDATE of
scope and groups; different files mean delete from the old file and a fresh
save (which generates a new id and resets created_at, and drops
expires_at) into the new file. -/
def set_scope (s : StoreState) (now : Nat) (new_id : String)
    (memory_id new_scope : String) (groups : Option (List String)) :
    Except String (StoreState × Option Memory) :=
  match get_by_id s memory_id with
  | .error e => .error e
  | .ok none => .ok (s, none)
  | .ok (some memory) =>
      if !(new_scope == "project" || new_scope == "group" || new_scope == "global") then
        .error ("Invalid scope: " ++ new_scope)
      else if new_scope == "group" && !groupsGiven groups then
        .error "Group scope requires at least one group"
      else
        let old_db := if memory.scope == "group" || memory.scope == "global"
          then "global" else "project"
        let new_db := if new_scope == "group" || new_scope == "global"
          then "global" else "project"
        if old_db == new_db then
          match getDb s (dbFile_for old_db) with
          | .error e => .error e
          | .ok rows =>
              let new_groups := if new_scope == "group" then groups.getD [] else []
              let rows := rows.map (fun m =>
                if m.id == memory_id then
                  { m with scope := new_scope, groups := new_groups, updated_at := now }
                else m)
              let s1 := setDb s (dbFile_for old_db) rows
              match get_by_id s1 memory_id with
              | .error e => .error e
              | .ok r => .ok (s1, r)
        else
          match delete s memory_id old_db with
          | .error e => .error e
          | .ok (s1, _) =>
              match save s1 now new_id memory.content (some memory.category) new_scope
                  memory.pinned memory.source memory.metadata none
                  (if new_scope == "group" then groups else none) with
              | .error e => .error e
              | .ok (s2, m2) => .ok (s2, some m2)

/-- store.MemoryStore.cleanup_expired: DELETE the rows whose expires_at is
set and before now; returns the count removed. -/
def cleanup_expired (s : StoreState) (now : Nat) (scope : String) :
    Except String (StoreState × Nat) :=
  match getDb s (dbFile_for scope) with
  | .error e => .error e
  | .ok rows =>
      let remaining := rows.filter (fun m =>
        match m.expires_at with
        | none => true
        | some e => !(e < now))
      .ok (setDb s (dbFile_for scope) remaining, rows.length - remaining.length)

/-- store.MemoryStore.reset: DELETE FROM memories with no WHERE clause; the
count is the whole row count of the file, whatever the scope column of the
rows says. -/
def reset (s : StoreState) (scope : String) : Except String (StoreState × Nat) :=
  match getDb s (dbFile_for scope) with
  | .error e => .error e
  | .ok rows => .ok (setDb s (dbFile_for scope) [], rows.length)

/-- pruning.PruneCandidate. -/
structure PruneCandidate where
  memory : Memory
  reasons : List String
deriving Repr, DecidableEq

/-- The scopes find_candidates walks: the given one, or all three when the
argument is absent or empty. -/
def pruneScopes : Option String → List String
  | none => ["project", "group", "global"]
  | some sc => if sc == "" then ["project", "group", "global"] else [sc]

/-- The memories one scope contributes to find_candidates: store.list with
limit 10000 and the default expiry suppression; an exception skips the
scope. -/
def scanScope (s : StoreState) (now : Nat) (scope : String) (category : Option String) :
    List Memory :=
  match list s now scope category false 10000 false with
  | .ok l => l
  | .error _ => []

/-- The age reason string of find_candidates. -/
def reasonOlder (d : Nat) : String := "older than " ++ toString d ++ "d"

/-- The age test of find_candidates: now minus created_at is at least
older_than_days days (Int arithmetic models the datetime difference). -/
def olderOk (now : Nat) (m : Memory) (d : Nat) : Bool :=
  (d : Int) * 86400 ≤ (now : Int) - (m.created_at : Int)

/-- The per-memory body of the find_candidates loops: skip pinned rows when
asked, build the reason list, then require both reasons when both criteria
were given and at least one reason otherwise. -/
def candidate_of (now : Nat) (older_than_days : Option Nat) (never_accessed : Bool)
    (exclude_pinned : Bool) (m : Memory) : Option PruneCandidate :=
  if exclude_pinned && m.pinned then none
  else
    let reasons :=
      (match older_than_days with
       | none => []
       | some d => if olderOk now m d then [reasonOlder d] else []) ++
      (if never_accessed && m.access_count == 0 then ["never accessed"] else [])
    if older_than_days.isSome && never_accessed then
      if 2 ≤ reasons.length then some ⟨m, reasons⟩ else none
    else if !reasons.isEmpty then some ⟨m, reasons⟩ else none

/-- pruning.PruningEngine.find_candidates. -/
def find_candidates (s : StoreState) (now : Nat) (scope : Option String)
    (older_than_days : Option Nat) (never_accessed : Bool) (category : Option String)
    (exclude_pinned : Bool) : List PruneCandidate :=
  (pruneScopes scope).flatMap (fun sc =>
    (scanScope s now sc category).filterMap
      (candidate_of now older_than_days never_accessed exclude_pinned))

/-- Whether the first component list is an initial segment of the second:
Path.relative_to succeeds exactly when the parent parts lead the path
parts. -/
def leadsList : List String → List String → Bool
  | [], _ => true
  | _ :: _, [] => false
  | a :: as, b :: bs => a == b && leadsList as bs

/-- One directory entry under base_path/projects as
config.find_descendant_project_paths reads it: whether the entry is a
directory, the parsed content of its .project_path file (none when the
file is missing or unreadable), and the storage directory. Paths are
component lists as Path.parts yields them, the root counting as one
component. -/
structure StoredProject where
  is_dir : Bool
  ref_path : Option (List String)
  storage : String
deriving Repr, DecidableEq

/-- The scan loop of config.find_descendant_project_paths: skip non-
directories, missing references and entries that are not strict
descendants; append a hit and stop once the result count reaches
max_results. -/
def fdpLoop (parent : List String) (max_results : Nat) :
    List StoredProject → List (List String × String) → List (List String × String)
  | [], acc => acc
  | e :: rest, acc =>
      if !e.is_dir then fdpLoop parent max_results rest acc
      else
        match e.ref_path with
        | none => fdpLoop parent max_results rest acc
        | some original_path =>
            if !leadsList parent original_path then fdpLoop parent max_results rest acc
            else if original_path == parent then fdpLoop parent max_results rest acc
            else
              let acc2 := acc ++ [(original_path, e.storage)]
              if max_results ≤ acc2.length then acc2
              else fdpLoop parent max_results rest acc2

/-- config.find_descendant_project_paths: nothing for a resolved parent of
at most two path components or a missing projects directory, else the scan
loop over the stored projects. -/
def find_descendant_project_paths (projects : List StoredProject)
    (projects_dir_exists : Bool) (parent_resolved : List String) (max_results : Nat) :
    List (List String × String) :=
  if parent_resolved.length ≤ 2 then []
  else if !projects_dir_exists then []
  else fdpLoop parent_resolved max_results projects []

/-- event_log.CommandEvent, without the autoincrement id. -/
structure CommandEvent where
  timestamp : Nat
  command : String
  subcommand : Option String
  project_path : Option String
  result_count : Option Nat
deriving Repr, DecidableEq

/-- event_log.EventLog.log: the whole body sits inside try/except, so a
failing database operation (db_fails) leaves the log unchanged and raises
nothing; otherwise the event is appended. -/
def eventLog_log (events : List CommandEvent) (now : Nat) (command : String)
    (subcommand : Option String) (project_path : Option String)
    (result_count : Option Nat) (db_fails : Bool) : List CommandEvent :=
  match (if db_fails then Except.error "database error"
         else Except.ok (events ++ [⟨now, command, subcommand, project_path, result_count⟩]) :
         Except String (List CommandEvent)) with
  | .ok es => es
  | .error _ => events

/-- The scope grouping cli._record_access_for_memories builds with
setdefault, in first-seen scope order. -/
def groupByScope (ms : List Memory) : List (String × List String) :=
  ms.foldl (fun acc m =>
    if acc.any (fun p => p.1 == m.scope) then
      acc.map (fun p => if p.1 == m.scope then (p.1, p.2 ++ [m.id]) else p)
    else acc ++ [(m.scope, [m.id])]) []

/-- The batch loop of cli._record_access_for_memories: one try/except wraps
it, so an error stops the loop, keeps the batches already committed and
raises nothing. -/
def runBatches (now : Nat) : StoreState → List (String × List String) → StoreState
  | s, [] => s
  | s, (sc, ids) :: rest =>
      match record_access_batch s now ids sc with
      | .ok s2 => runBatches now s2 rest
      | .error _ => s

/-- cli._record_access_for_memories. -/
def record_access_for_memories (s : StoreState) (now : Nat) (ms : List Memory) :
    StoreState :=
  runBatches now s (groupByScope ms)

/-! Concrete example data used by the theorems below. -/

/-- First row of the multi-term search scenario. -/
def poetry1 : Memory :=
  { id := "mem_000000000001", content := "Use poetry to run tests in this project",
    category := "factual", scope := "project", project_path := some "/ws/app",
    pinned := false, groups := [], created_at := 3, updated_at := 3,
    expires_at := none, source := "user_explicit", metadata := "\x7b\x7d",
    access_count := 0, last_accessed_at := none }

/-- Second row of the multi-term search scenario. -/
def poetry2 : Memory :=
  { poetry1 with
    id := "mem_000000000002",
    content := "The poetry config is in pyproject.toml", created_at := 2, updated_at := 2 }

/-- Third row of the multi-term search scenario. -/
def pytest3 : Memory :=
  { poetry1 with
    id := "mem_000000000003",
    content := "Run pytest for unit tests", created_at := 1, updated_at := 1 }

/-- The store of the multi-term search scenario (the contents the
repository test test_search_keyword_multi_term saves). -/
def searchStore : StoreState :=
  { globalDB := [], projectDB := [poetry1, poetry2, pytest3],
    project_path := some "/ws/app", descendantDBs := [] }

/-- A store with empty files and a bound project path. -/
def emptyProjStore : StoreState :=
  { globalDB := [], projectDB := [], project_path := some "/ws/app",
    descendantDBs := [] }

/-- The row save writes for a global-scope call that passes groups. -/
def savedGlobalMem : Memory :=
  { id := "mem_000000000010", content := "Shared conventions", category := "factual",
    scope := "global", project_path := some "/ws/app", pinned := false,
    groups := ["team1"], created_at := 7, updated_at := 7, expires_at := none,
    source := "user_explicit", metadata := "\x7b\x7d", access_count := 0,
    last_accessed_at := none }

/-- A global file holding one global row and one group row, next to a
project row. -/
def resetStore : StoreState :=
  { globalDB :=
      [{ savedGlobalMem with
          id := "mem_000000000021", groups := [] },
       { savedGlobalMem with
          id := "mem_000000000022", scope := "group", groups := ["team1"] }],
    projectDB := [poetry1], project_path := some "/ws/app", descendantDBs := [] }

/-- An expired project row (expires_at 5, read at now 10) with accesses. -/
def expiredMem : Memory :=
  { id := "mem_000000000030", content := "Old note", category := "factual",
    scope := "project", project_path := some "/ws/app", pinned := false,
    groups := [], created_at := 1, updated_at := 1, expires_at := some 5,
    source := "user_explicit", metadata := "\x7b\x7d", access_count := 2,
    last_accessed_at := some 4 }

/-- A project file holding only the expired row. -/
def expiredStore : StoreState :=
  { globalDB := [], projectDB := [expiredMem], project_path := some "/ws/app",
    descendantDBs := [] }

/-- A store with no bound project path (global-only use). -/
def noProjectStore : StoreState :=
  { globalDB := [], projectDB := [], project_path := none, descendantDBs := [] }

/-- A global row expired at time 3. -/
def cleanupRow41 : Memory :=
  { savedGlobalMem with
    id := "mem_000000000041", groups := [], expires_at := some 3 }

/-- A global row with no expiry. -/
def cleanupRow42 : Memory :=
  { savedGlobalMem with
    id := "mem_000000000042", groups := [] }

/-- A store whose global file holds one row expired at 3 and one without
expiry. -/
def cleanupStore : StoreState :=
  { globalDB := [cleanupRow41, cleanupRow42],
    projectDB := [], project_path := none, descendantDBs := [] }

/-- A stored project whose reference path sits under /ws/studio. -/
def descEntry : StoredProject :=
  { is_dir := true, ref_path := some ["/", "ws", "studio", "db"], storage := "abc123" }

/-- The row the cross-file branch of set_scope writes: save generates a
fresh id, restamps created_at and updated_at, drops expires_at, keeps
content, pinned, source and metadata, and re-normalizes the category. -/
def mkMoved (s : StoreState) (now : Nat) (new_id : String) (m : Memory) (sc : String)
    (gs : List String) : Memory :=
  { id := new_id, content := m.content,
    category := normalize_category (some m.category) m.content, scope := sc,
    project_path := s.project_path, pinned := m.pinned, groups := gs,
    created_at := now, updated_at := now, expires_at := none, source := m.source,
    metadata := m.metadata, access_count := 0, last_accessed_at := none }

/-- A project-scoped row about to change scope. -/
def moveMem : Memory :=
  { id := "mem_000000000050", content := "Parent memory", category := "factual",
    scope := "project", project_path := some "/ws/app", pinned := false,
    groups := [], created_at := 3, updated_at := 3, expires_at := none,
    source := "user_explicit", metadata := "\x7b\x7d", access_count := 0,
    last_accessed_at := none }

/-- A store holding only that row in its project file. -/
def moveStore : StoreState :=
  { globalDB := [], projectDB := [moveMem], project_path := some "/ws/app",
    descendantDBs := [] }

/-- The row set_scope writes when moving moveMem to the global file. -/
def movedMem : Memory := mkMoved moveStore 9 "mem_000000000051" moveMem "global" []

/-- The store after the move. -/
def movedStore : StoreState :=
  { moveStore with projectDB := [], globalDB := [movedMem] }

/-! Helper lemmas about the embedding. -/

theorem mem_insertKeyDesc (key : Memory → Nat) (x m : Memory) (l : List Memory) :
    m ∈ insertKeyDesc key x l ↔ m = x ∨ m ∈ l := by
  induction l with
  | nil => simp [insertKeyDesc]
  | cons y ys ih =>
      simp only [insertKeyDesc]
      split
      · simp
      · simp only [List.mem_cons, ih]
        tauto

theorem mem_sortKeyDesc (key : Memory → Nat) (m : Memory) (l : List Memory) :
    m ∈ sortKeyDesc key l ↔ m ∈ l := by
  induction l with
  | nil => simp [sortKeyDesc]
  | cons y ys ih => simp [sortKeyDesc, mem_insertKeyDesc, ih]

theorem mem_sortCreatedDesc (m : Memory) (l : List Memory) :
    m ∈ sortCreatedDesc l ↔ m ∈ l :=
  mem_sortKeyDesc _ m l

theorem mem_sortAccessDesc (m : Memory) (l : List Memory) :
    m ∈ sortAccessDesc l ↔ m ∈ l :=
  mem_sortKeyDesc _ m l

theorem mem_dropExpired (now : Nat) (rows : List Memory) (m : Memory) :
    m ∈ dropExpired now rows → m ∈ rows ∧ is_expired now m.expires_at = false := by
  intro h
  simp only [dropExpired, List.mem_filter, Bool.not_eq_true'] at h
  exact h

theorem addUnique_sound (now : Nat) (ms : List Memory) :
    ∀ acc : List Memory, (∀ x ∈ acc, is_expired now x.expires_at = false) →
      ∀ x ∈ addUnique now acc ms, is_expired now x.expires_at = false := by
  induction ms with
  | nil => intro acc hacc x hx; exact hacc x hx
  | cons m rest ih =>
      intro acc hacc x hx
      simp only [addUnique, List.foldl_cons] at hx
      by_cases hc : (acc.any (fun r => r.id == m.id) || is_expired now m.expires_at) = true
      · rw [if_pos hc] at hx
        exact ih acc hacc x hx
      · rw [if_neg hc] at hx
        refine ih (acc ++ [m]) ?_ x hx
        intro y hy
        rcases List.mem_append.mp hy with hy | hy
        · exact hacc y hy
        · rcases List.mem_singleton.mp hy with rfl
          simp only [Bool.or_eq_true, not_or, Bool.not_eq_true] at hc
          exact hc.2

theorem dedupAppend_sound (p : Memory → Prop) (ms : List Memory) :
    ∀ acc : List Memory, (∀ x ∈ acc, p x) → (∀ x ∈ ms, p x) →
      ∀ x ∈ dedupAppend acc ms, p x := by
  induction ms with
  | nil => intro acc hacc _ x hx; exact hacc x hx
  | cons m rest ih =>
      intro acc hacc hms x hx
      simp only [dedupAppend, List.foldl_cons] at hx
      by_cases hc : (acc.any (fun r => r.id == m.id)) = true
      · rw [if_pos hc] at hx
        exact ih acc hacc (fun y hy => hms y (List.mem_cons_of_mem m hy)) x hx
      · rw [if_neg hc] at hx
        refine ih (acc ++ [m]) ?_ (fun y hy => hms y (List.mem_cons_of_mem m hy)) x hx
        intro y hy
        rcases List.mem_append.mp hy with hy | hy
        · exact hacc y hy
        · rcases List.mem_singleton.mp hy with rfl
          exact hms _ (List.mem_cons_self _ _)

theorem getDb_ok (s : StoreState) (f : DbFile) (rows : List Memory) :
    getDb s f = Except.ok rows → fileRows s f = rows := by
  cases f with
  | globalFile =>
      intro h
      simp only [getDb] at h
      cases h
      rfl
  | projectFile =>
      cases hp : s.project_path with
      | none => intro h; simp [getDb, hp] at h
      | some _ =>
          intro h
          simp only [getDb, hp] at h
          cases h
          rfl

theorem fileRows_setDb_same (s : StoreState) (f : DbFile) (rows : List Memory) :
    fileRows (setDb s f rows) f = rows := by
  cases f <;> rfl

theorem setDb_fileRows_self (s : StoreState) (f : DbFile) :
    setDb s f (fileRows s f) = s := by
  cases f <;> rfl

theorem project_path_setDb (s : StoreState) (f : DbFile) (rows : List Memory) :
    (setDb s f rows).project_path = s.project_path := by
  cases f <;> rfl

theorem keyword_hit_any (ks : List String) (content : String) :
    keyword_hit ks content ↔
      (ks.any (fun k => containsSub (strLower content) k)) = true := by
  simp [keyword_hit, List.any_eq_true]

/-! Claim C8. -/

/-- C8: when the caller omits the category or supplies an invalid one, the
category save stores is auto-detected by the case-insensitive
keyword-presence rule over the three pairwise disjoint keyword lists,
checked in the order decision, task_history, session_summary, defaulting
to factual; a valid caller-supplied category is kept as is. -/
theorem category_autodetect_rule :
    (∀ content, keyword_hit decision_keywords content →
      detect_category content = "decision") ∧
    (∀ content, ¬keyword_hit decision_keywords content →
      keyword_hit task_keywords content → detect_category content = "task_history") ∧
    (∀ content, ¬keyword_hit decision_keywords content →
      ¬keyword_hit task_keywords content → keyword_hit summary_keywords content →
      detect_category content = "session_summary") ∧
    (∀ content, ¬keyword_hit decision_keywords content →
      ¬keyword_hit task_keywords content → ¬keyword_hit summary_keywords content →
      detect_category content = "factual") ∧
    (∀ k ∈ decision_keywords, k ∉ task_keywords ∧ k ∉ summary_keywords) ∧
    (∀ k ∈ task_keywords, k ∉ summary_keywords) ∧
    (∀ content, normalize_category none content = detect_category content) ∧
    (∀ c content, is_valid_category c = false →
      normalize_category (some c) content = detect_category content) ∧
    (∀ s now mid content cat scope pin src md exp gs out,
      save s now mid content cat scope pin src md exp gs = Except.ok out →
      out.2.category = normalize_category cat content) := by
  refine ⟨?_, ?_, ?_, ?_, ?_, ?_, ?_, ?_, ?_⟩
  · intro content h1
    rw [keyword_hit_any] at h1
    simp [detect_category, h1]
  · intro content h1 h2
    rw [keyword_hit_any] at h1 h2
    simp only [Bool.not_eq_true] at h1
    simp [detect_category, h1, h2]
  · intro content h1 h2 h3
    rw [keyword_hit_any] at h1 h2 h3
    simp only [Bool.not_eq_true] at h1 h2
    simp [detect_category, h1, h2, h3]
  · intro content h1 h2 h3
    rw [keyword_hit_any] at h1 h2 h3
    simp only [Bool.not_eq_true] at h1 h2 h3
    simp [detect_category, h1, h2, h3]
  · decide
  · decide
  · intro content
    rfl
  · intro c content h
    simp [normalize_category, h]
  · intro s now mid content cat scope pin src md exp gs out h
    simp only [save] at h
    split at h
    · simp at h
    · split at h
      · simp at h
      · split at h
        · simp at h
        · cases h
          rfl

/-- Witness for C8 at concrete contents: the scenario contents of the spec,
through the theorem itself. -/
theorem category_autodetect_rule_witness :
    detect_category "User prefers functional components" = "decision" ∧
    detect_category "Implemented the login feature" = "task_history" ∧
    detect_category "The API uses REST" = "factual" ∧
    normalize_category (some "bogus") "Implemented the login feature" = "task_history" := by
  have h := category_autodetect_rule
  refine ⟨h.1 _ (by decide), h.2.1 _ (by decide) (by decide), ?_, ?_⟩
  · exact h.2.2.2.1 _ (by decide) (by decide) (by decide)
  · rw [h.2.2.2.2.2.2.2.1 "bogus" _ (by decide)]
    exact h.2.1 _ (by decide) (by decide)

/-! Claim C1. -/

/-- C1: search_keyword does NOT split the query on whitespace: it issues one
LIKE over the whole query text, so the query "poetry test" matches no row
(no content holds that contiguous text) where the split-and-AND rule of the
spec returns exactly the row holding both tokens; and the empty query,
instead of returning the empty list, matches every row. -/
theorem search_keyword_one_like_divergence :
    search_keyword searchStore 10 "poetry test" "project" 10 = Except.ok [] ∧
    search_keyword_spec searchStore 10 "poetry test" "project" 10 = [poetry1] ∧
    search_keyword searchStore 10 "" "project" 10 =
      Except.ok [poetry1, poetry2, pytest3] ∧
    search_keyword_spec searchStore 10 "" "project" 10 = [] := by
  exact ⟨rfl, rfl, rfl, rfl⟩

/-! Claim C4. -/

/-- C4: save does not ignore the groups argument for non-group scopes: a
global-scope save with groups stores and returns a global-scoped memory
whose groups list is non-empty, breaking the invariant that only
group-scoped memories own groups (the docstring of save says the argument
is ignored for other scopes). -/
theorem save_keeps_groups_on_global_scope :
    save emptyProjStore 7 "mem_000000000010" "Shared conventions" none "global" false
        "user_explicit" "\x7b\x7d" none (some ["team1"]) =
      Except.ok ({ emptyProjStore with globalDB := [savedGlobalMem] }, savedGlobalMem) ∧
    savedGlobalMem.scope = "global" ∧ savedGlobalMem.groups = ["team1"] := by
  exact ⟨rfl, rfl, rfl⟩

/-! Claim C10. -/

/-- C10: reset on the global file (reached through either the global or the
group scope argument) deletes every row of the file whatever its scope
column says, and returns the whole row count of the file; the scope column
filter that list applies has no counterpart here. -/
theorem reset_clears_whole_global_file (s : StoreState) (scope : String)
    (h : scope = "global" ∨ scope = "group") :
    reset s scope = Except.ok ({ s with globalDB := [] }, s.globalDB.length) := by
  rcases h with rfl | rfl <;> rfl

/-- Witness for C10: on a global file holding one global-scoped and one
group-scoped row, reset through the global scope removes both and counts
both. -/
theorem reset_clears_whole_global_file_witness :
    reset resetStore "global" = Except.ok ({ resetStore with globalDB := [] }, 2) := by
  exact reset_clears_whole_global_file resetStore "global" (Or.inl rfl)

/-! Claim C3. -/

theorem list_no_expired (s : StoreState) (now : Nat) (scope : String)
    (category : Option String) (po : Bool) (lim : Nat) (res : List Memory)
    (h : list s now scope category po lim false = Except.ok res) :
    ∀ m ∈ res, is_expired now m.expires_at = false := by
  intro m hm
  simp only [list] at h
  cases hdb : getDb s (dbFile_for scope) with
  | error e => rw [hdb] at h; simp at h
  | ok rows =>
      rw [hdb] at h
      simp only [Bool.false_eq_true, if_false, Except.ok.injEq] at h
      subst h
      exact (mem_dropExpired _ _ _ hm).2

theorem list_by_group_no_expired (s : StoreState) (now : Nat)
    (group_name : Option String) (po : Bool) (category : Option String) (lim : Nat) :
    ∀ m ∈ list_by_group s now group_name po category lim false,
      is_expired now m.expires_at = false := by
  intro m hm
  simp only [list_by_group, Bool.false_eq_true, if_false] at hm
  exact (mem_dropExpired _ _ _ hm).2

theorem search_keyword_no_expired (s : StoreState) (now : Nat) (query scope : String)
    (lim : Nat) (res : List Memory)
    (h : search_keyword s now query scope lim = Except.ok res) :
    ∀ m ∈ res, is_expired now m.expires_at = false := by
  intro m hm
  simp only [search_keyword] at h
  cases hdb : getDb s (dbFile_for scope) with
  | error e => rw [hdb] at h; simp at h
  | ok rows =>
      rw [hdb] at h
      simp only [Except.ok.injEq] at h
      subst h
      exact (mem_dropExpired _ _ _ hm).2

theorem query_db_file_no_expired (now : Nat) (rows : List Memory)
    (category : Option String) (po : Bool) (lim : Nat) :
    ∀ m ∈ query_db_file now rows category po lim, is_expired now m.expires_at = false := by
  intro m hm
  simp only [query_db_file] at hm
  exact (mem_dropExpired _ _ _ hm).2

theorem search_db_file_no_expired (now : Nat) (rows : List Memory) (query : String)
    (lim : Nat) :
    ∀ m ∈ search_db_file now rows query lim, is_expired now m.expires_at = false := by
  intro m hm
  simp only [search_db_file] at hm
  exact (mem_dropExpired _ _ _ hm).2

theorem allOk_ite (now : Nat) (c : Bool) (a b : List Memory)
    (ha : ∀ x ∈ a, is_expired now x.expires_at = false)
    (hb : ∀ x ∈ b, is_expired now x.expires_at = false) :
    ∀ x ∈ (if c = true then a else b), is_expired now x.expires_at = false := by
  cases c
  · simpa using hb
  · simpa using ha

theorem foldl_dedupAppend_sound (p : Memory → Prop) (g : List Memory → List Memory)
    (hg : ∀ rows, ∀ x ∈ g rows, p x) :
    ∀ (dbs : List (List Memory)) (acc : List Memory), (∀ x ∈ acc, p x) →
      ∀ x ∈ dbs.foldl (fun acc rows => dedupAppend acc (g rows)) acc, p x := by
  intro dbs
  induction dbs with
  | nil => intro acc hacc x hx; exact hacc x hx
  | cons db rest ih =>
      intro acc hacc x hx
      simp only [List.foldl_cons] at hx
      exact ih _ (dedupAppend_sound p _ _ hacc (hg db)) x hx

/-- C3 amended: the read APIs that do suppress expired memories. list,
list_by_group, search_keyword, search_with_groups, list_with_descendants
and search_with_descendants never return an expired memory (with
include_expired left false where the parameter exists); get, get_by_id,
get_most_accessed and get_pin_candidates perform no expiry filtering at
all (see the counterexample). -/
theorem read_apis_suppress_expired :
    (∀ s now scope category po lim res, list s now scope category po lim false = Except.ok res →
      ∀ m ∈ res, is_expired now m.expires_at = false) ∧
    (∀ s now gn po category lim, ∀ m ∈ list_by_group s now gn po category lim false,
      is_expired now m.expires_at = false) ∧
    (∀ s now query scope lim res, search_keyword s now query scope lim = Except.ok res →
      ∀ m ∈ res, is_expired now m.expires_at = false) ∧
    (∀ s now query ip ig igs lim, ∀ m ∈ search_with_groups s now query ip ig igs lim,
      is_expired now m.expires_at = false) ∧
    (∀ s now category po lim, ∀ m ∈ list_with_descendants s now category po lim false,
      is_expired now m.expires_at = false) ∧
    (∀ s now query lim, ∀ m ∈ search_with_descendants s now query lim,
      is_expired now m.expires_at = false) := by
  have hnil : ∀ (now : Nat), ∀ x ∈ ([] : List Memory), is_expired now x.expires_at = false := by
    intro now x hx
    cases hx
  refine ⟨list_no_expired, list_by_group_no_expired, search_keyword_no_expired, ?_, ?_, ?_⟩
  · intro s now query ip ig igs lim m hm
    simp only [search_with_groups] at hm
    have hmem := (mem_sortCreatedDesc _ _).mp (List.take_subset _ _ hm)
    have hP1 := allOk_ite now (ip && s.project_path.isSome)
      (addUnique now [] (swgProjectLeg s now query lim)) []
      (addUnique_sound now (swgProjectLeg s now query lim) [] (hnil now)) (hnil now)
    have hP2 := allOk_ite now ig _ _
      (addUnique_sound now (swgGlobalLeg s now query lim) _ hP1) hP1
    cases igs with
    | none => exact hP2 m hmem
    | some gs =>
        cases gs with
        | nil => exact hP2 m hmem
        | cons g gs2 =>
            exact addUnique_sound now (swgGroupLeg s now query (g :: gs2) lim) _ hP2 m hmem
  · intro s now category po lim m hm
    simp only [list_with_descendants] at hm
    have hmem := (mem_sortCreatedDesc _ _).mp (List.take_subset _ _ hm)
    have hcur : ∀ x ∈ (match list s now "project" category po lim false with
        | .ok l => l
        | .error _ => ([] : List Memory)), is_expired now x.expires_at = false := by
      cases hres : list s now "project" category po lim false with
      | ok l => intro x hx; exact list_no_expired _ _ _ _ _ _ _ hres x hx
      | error e => intro x hx; cases hx
    refine foldl_dedupAppend_sound (fun x => is_expired now x.expires_at = false)
      (fun rows => query_db_file now rows category po lim) ?_ _ _ ?_ m hmem
    · intro rows x hx
      exact query_db_file_no_expired now rows category po lim x hx
    · exact dedupAppend_sound (fun x => is_expired now x.expires_at = false) _ _
        (hnil now) hcur
  · intro s now query lim m hm
    simp only [search_with_descendants] at hm
    have hmem := (mem_sortCreatedDesc _ _).mp (List.take_subset _ _ hm)
    have hcur : ∀ x ∈ (match search_keyword s now query "project" lim with
        | .ok l => l
        | .error _ => ([] : List Memory)), is_expired now x.expires_at = false := by
      cases hres : search_keyword s now query "project" lim with
      | ok l => intro x hx; exact search_keyword_no_expired _ _ _ _ _ _ hres x hx
      | error e => intro x hx; cases hx
    refine foldl_dedupAppend_sound (fun x => is_expired now x.expires_at = false)
      (fun rows => search_db_file now rows query lim) ?_ _ _ ?_ m hmem
    · intro rows x hx
      exact search_db_file_no_expired now rows query lim x hx
    · exact dedupAppend_sound (fun x => is_expired now x.expires_at = false) _ _
        (hnil now) hcur

/-- Counterexample to C3 as stated: at time 10 the row is expired, yet get,
get_by_id, get_most_accessed and get_pin_candidates all return it, with no
include_expired opt-in offered by any of them. -/
theorem get_returns_expired_memory :
    is_expired 10 expiredMem.expires_at = true ∧
    get expiredStore "mem_000000000030" "project" = Except.ok (some expiredMem) ∧
    get_by_id expiredStore "mem_000000000030" = Except.ok (some expiredMem) ∧
    get_most_accessed expiredStore "project" 10 = Except.ok [expiredMem] ∧
    get_pin_candidates expiredStore "project" 1 10 = Except.ok [expiredMem] := by
  exact ⟨rfl, rfl, rfl, rfl, rfl⟩

/-! Claim C5. -/

theorem record_access_err (s : StoreState) (now : Nat) (mid : String)
    (h : s.project_path = none) :
    record_access s now mid "project" = Except.error "No project path set" := by
  have hf : dbFile_for "project" = .projectFile := rfl
  simp only [record_access, hf, getDb, h]

theorem record_access_batch_err (s : StoreState) (now : Nat) (mid : String)
    (rest : List String) (h : s.project_path = none) :
    record_access_batch s now (mid :: rest) "project" =
      Except.error "No project path set" := by
  have hf : dbFile_for "project" = .projectFile := rfl
  simp only [record_access_batch, List.isEmpty_cons, hf, getDb, h]
  rfl

theorem groupByScope_aux (ids : List String) (ms : List Memory)
    (h : ∀ m ∈ ms, m.scope = "project") :
    ms.foldl (fun acc m =>
      if acc.any (fun p => p.1 == m.scope) then
        acc.map (fun p => if p.1 == m.scope then (p.1, p.2 ++ [m.id]) else p)
      else acc ++ [(m.scope, [m.id])]) [("project", ids)] =
      [("project", ids ++ ms.map (fun m => m.id))] := by
  induction ms generalizing ids with
  | nil => simp
  | cons m rest ih =>
      have hm : m.scope = "project" := h m (List.mem_cons_self _ _)
      simp only [List.foldl_cons, hm, List.any_cons, List.any_nil, beq_self_eq_true,
        Bool.or_false, if_true, List.map_cons, List.map_nil, List.mem_cons]
      rw [ih (ids ++ [m.id]) (fun x hx => h x (List.mem_cons_of_mem m hx))]
      simp

theorem runBatches_stops (s : StoreState) (now : Nat) (ids : List String)
    (rest : List (String × List String))
    (hb : record_access_batch s now ids "project" = Except.error "No project path set") :
    runBatches now s (("project", ids) :: rest) = s := by
  simp only [runBatches, hb]

/-- C5 amended: record_access and record_access_batch have no error handling
of their own, so a failing connection propagates (project scope with no
project path raises ValueError); the swallowing the spec describes lives in
event_log.log (whose whole body is inside try/except) and in the CLI helper
_record_access_for_memories, which wraps the store calls and returns
quietly on any error. -/
theorem access_recording_error_policy :
    (∀ s now mid, s.project_path = none →
      record_access s now mid "project" = Except.error "No project path set") ∧
    (∀ s now mid rest, s.project_path = none →
      record_access_batch s now (mid :: rest) "project" =
        Except.error "No project path set") ∧
    (∀ ev now c sub pp rc, eventLog_log ev now c sub pp rc true = ev) ∧
    (∀ ev now c sub pp rc, eventLog_log ev now c sub pp rc false =
      ev ++ [⟨now, c, sub, pp, rc⟩]) ∧
    (∀ s now ms, s.project_path = none → (∀ m ∈ ms, m.scope = "project") →
      record_access_for_memories s now ms = s) := by
  refine ⟨record_access_err, record_access_batch_err, ?_, ?_, ?_⟩
  · intro ev now c sub pp rc
    rfl
  · intro ev now c sub pp rc
    rfl
  · intro s now ms hpp hscope
    cases ms with
    | nil => rfl
    | cons m rest =>
        have hm : m.scope = "project" := hscope m (List.mem_cons_self _ _)
        have hg : groupByScope (m :: rest) =
            [("project", [m.id] ++ rest.map (fun m => m.id))] := by
          simp only [groupByScope, List.foldl_cons, List.any_nil, Bool.false_eq_true,
            if_false, List.nil_append, hm]
          exact groupByScope_aux [m.id] rest
            (fun x hx => hscope x (List.mem_cons_of_mem m hx))
        simp only [record_access_for_memories, hg, List.singleton_append]
        exact runBatches_stops s now _ [] (record_access_batch_err s now _ _ hpp)

/-- Counterexample to C5 as stated: record_access raises on a store with no
bound project path (the exact state the CLI reaches for global-only use),
instead of swallowing the error the way event_log.log does. -/
theorem record_access_raises_without_project_path :
    record_access noProjectStore 0 "mem_000000000001" "project" =
      Except.error "No project path set" := by
  rfl

/-- Witness for the amended C5 at concrete inputs, through the theorem
itself. -/
theorem access_recording_error_policy_witness :
    record_access_batch noProjectStore 3 ["mem_000000000002"] "project" =
      Except.error "No project path set" ∧
    eventLog_log [] 3 "search" none none (some 0) true = [] ∧
    record_access_for_memories noProjectStore 3 [poetry1] = noProjectStore := by
  have h := access_recording_error_policy
  refine ⟨h.2.1 _ _ _ [] rfl, h.2.2.1 _ _ _ _ _ _, h.2.2.2.2 _ _ _ rfl ?_⟩
  intro m hm
  rcases List.mem_singleton.mp hm with rfl
  rfl

/-! Claim C9. -/

/-- C9: a second cleanup_expired at a later time removes nothing and
returns 0, provided no remaining expiry instant lies between the two call
times: every row the first call keeps has no expiry or one at or after
now1, and by hypothesis none of those sits before now2. -/
theorem cleanup_expired_twice_zero (s s1 : StoreState) (scope : String)
    (now1 now2 n1 : Nat)
    (h1 : cleanup_expired s now1 scope = Except.ok (s1, n1))
    (_h12 : now1 ≤ now2)
    (hpass : ∀ m ∈ fileRows s (dbFile_for scope), ∀ e, m.expires_at = some e →
      e < now1 ∨ now2 ≤ e) :
    cleanup_expired s1 now2 scope = Except.ok (s1, 0) := by
  simp only [cleanup_expired] at h1 ⊢
  cases hdb : getDb s (dbFile_for scope) with
  | error e => rw [hdb] at h1; simp at h1
  | ok rows =>
      rw [hdb] at h1
      simp only [Except.ok.injEq, Prod.mk.injEq] at h1
      obtain ⟨hs1, _⟩ := h1
      have hrows : fileRows s (dbFile_for scope) = rows := getDb_ok s _ rows hdb
      have hs1rows : fileRows s1 (dbFile_for scope) =
          rows.filter (fun m => match m.expires_at with
            | none => true
            | some e => !(e < now1)) := by
        rw [← hs1]
        exact fileRows_setDb_same s _ _
      have hdb1 : getDb s1 (dbFile_for scope) = Except.ok (fileRows s1 (dbFile_for scope)) := by
        cases hf : dbFile_for scope with
        | globalFile => rfl
        | projectFile =>
            have hpp : s1.project_path = s.project_path := by
              rw [← hs1]
              exact project_path_setDb s _ _
            rw [hf] at hdb
            simp only [getDb] at hdb ⊢
            cases hp : s.project_path with
            | none => rw [hp] at hdb; simp at hdb
            | some _ => rw [hpp, hp]; rfl
      rw [hdb1]
      have hkeep : (fileRows s1 (dbFile_for scope)).filter (fun m => match m.expires_at with
          | none => true
          | some e => !(e < now2)) = fileRows s1 (dbFile_for scope) := by
        apply List.filter_eq_self.mpr
        intro m hm
        rw [hs1rows] at hm
        have hmem := List.mem_filter.mp hm
        have hkept := hmem.2
        cases hexp : m.expires_at with
        | none => simp [hexp]
        | some e =>
            rw [hexp] at hkept
            simp only [Bool.not_eq_true', decide_eq_false_iff_not] at hkept
            rcases hpass m (by rw [hrows]; exact hmem.1) e hexp with hlt | hge
            · exact absurd hlt hkept
            · simp only [hexp, Bool.not_eq_true', decide_eq_false_iff_not]
              omega
      simp only [hkeep, Nat.sub_self, setDb_fileRows_self]

/-- Witness for C9: first cleanup at time 5 removes the expired row and
returns 1; the second at time 8 returns 0, through the theorem itself. -/
theorem cleanup_expired_twice_zero_witness :
    cleanup_expired ({ cleanupStore with globalDB := [cleanupRow42] }) 8 "global" =
      Except.ok ({ cleanupStore with globalDB := [cleanupRow42] }, 0) := by
  refine cleanup_expired_twice_zero cleanupStore _ "global" 5 8 1 rfl (by decide) ?_
  intro m hm e he
  have hm2 : m ∈ [cleanupRow41, cleanupRow42] := hm
  rcases List.mem_cons.mp hm2 with rfl | hm3
  · have he3 : some 3 = some e := he
    cases he3
    left
    decide
  · rcases List.mem_cons.mp hm3 with rfl | hm4
    · have heN : (none : Option Nat) = some e := he
      cases heN
    · cases hm4

/-! Claim C6. -/

theorem candidate_of_eq (now : Nat) (otd : Option Nat) (na : Bool) (ep : Bool)
    (m : Memory) (c : PruneCandidate) :
    candidate_of now otd na ep m = some c ↔
      m = c.memory ∧ (ep && m.pinned) = false ∧
      (match otd, na with
       | some d, true => olderOk now m d = true ∧ m.access_count = 0 ∧
           c.reasons = [reasonOlder d, "never accessed"]
       | some d, false => olderOk now m d = true ∧ c.reasons = [reasonOlder d]
       | none, true => m.access_count = 0 ∧ c.reasons = ["never accessed"]
       | none, false => False) := by
  obtain ⟨cm, cr⟩ := c
  by_cases hp : (ep && m.pinned) = true
  · simp [candidate_of, hp]
  · have hp2 : (ep && m.pinned) = false := by
      rwa [Bool.not_eq_true] at hp
    rcases otd with _ | d <;> cases na
    · simp [candidate_of, hp2]
    · by_cases hc : m.access_count = 0
      · simp [candidate_of, hp2, hc, PruneCandidate.mk.injEq, eq_comm]
      · simp [candidate_of, hp2, hc]
    · by_cases ho : olderOk now m d = true
      · simp [candidate_of, hp2, ho, PruneCandidate.mk.injEq, eq_comm]
      · simp only [Bool.not_eq_true] at ho
        simp [candidate_of, hp2, ho]
    · by_cases ho : olderOk now m d = true
      · by_cases hc : m.access_count = 0
        · simp [candidate_of, hp2, ho, hc, PruneCandidate.mk.injEq, eq_comm]
        · simp [candidate_of, hp2, ho, hc]
      · simp only [Bool.not_eq_true] at ho
        by_cases hc : m.access_count = 0
        · simp [candidate_of, hp2, ho, hc]
        · simp [candidate_of, hp2, ho, hc]

/-- C6: a candidate of find_candidates is exactly a scanned memory that is
not pinned when exclude_pinned is set and that meets BOTH the age and the
never-accessed conditions when both older_than_days and never_accessed are
given, the single given condition when only one is given, and nothing when
neither is given; the reason strings record which conditions held. -/
theorem find_candidates_rule (s : StoreState) (now : Nat) (scope : Option String)
    (otd : Option Nat) (na : Bool) (category : Option String) (ep : Bool)
    (c : PruneCandidate) :
    c ∈ find_candidates s now scope otd na category ep ↔
      c.memory ∈ (pruneScopes scope).flatMap (fun sc => scanScope s now sc category) ∧
      (ep && c.memory.pinned) = false ∧
      (match otd, na with
       | some d, true => olderOk now c.memory d = true ∧ c.memory.access_count = 0 ∧
           c.reasons = [reasonOlder d, "never accessed"]
       | some d, false => olderOk now c.memory d = true ∧ c.reasons = [reasonOlder d]
       | none, true => c.memory.access_count = 0 ∧ c.reasons = ["never accessed"]
       | none, false => False) := by
  simp only [find_candidates, List.mem_flatMap, List.mem_filterMap, candidate_of_eq]
  constructor
  · rintro ⟨sc, hsc, m, hm, rfl, hrest⟩
    exact ⟨⟨sc, hsc, hm⟩, hrest⟩
  · rintro ⟨⟨sc, hsc, hm⟩, hrest⟩
    exact ⟨sc, hsc, c.memory, hm, rfl, hrest⟩

/-! Claim C7. -/

theorem fdpLoop_mem (parent : List String) (mr : Nat) :
    ∀ (l : List StoredProject) (acc : List (List String × String)),
      ∀ p ∈ fdpLoop parent mr l acc, p ∈ acc ∨
        ∃ e ∈ l, e.is_dir = true ∧ e.ref_path = some p.1 ∧ e.storage = p.2 ∧
          leadsList parent p.1 = true ∧ p.1 ≠ parent := by
  intro l
  induction l with
  | nil =>
      intro acc p hp
      exact Or.inl hp
  | cons e rest ih =>
      intro acc p hp
      simp only [fdpLoop] at hp
      split at hp
      · rcases ih acc p hp with h | ⟨e2, he2, r2⟩
        · exact Or.inl h
        · exact Or.inr ⟨e2, List.mem_cons_of_mem e he2, r2⟩
      · rename_i hdir
        split at hp
        · rcases ih acc p hp with h | ⟨e2, he2, r2⟩
          · exact Or.inl h
          · exact Or.inr ⟨e2, List.mem_cons_of_mem e he2, r2⟩
        · rename_i op heq
          split at hp
          · rcases ih acc p hp with h | ⟨e2, he2, r2⟩
            · exact Or.inl h
            · exact Or.inr ⟨e2, List.mem_cons_of_mem e he2, r2⟩
          · rename_i hleads
            split at hp
            · rcases ih acc p hp with h | ⟨e2, he2, r2⟩
              · exact Or.inl h
              · exact Or.inr ⟨e2, List.mem_cons_of_mem e he2, r2⟩
            · rename_i hne
              have hdir2 : e.is_dir = true := by
                simpa using hdir
              have hleads2 : leadsList parent op = true := by
                simpa using hleads
              have hne2 : op ≠ parent := by
                simpa using hne
              split at hp
              · rcases List.mem_append.mp hp with h | h
                · exact Or.inl h
                · rcases List.mem_singleton.mp h with rfl
                  exact Or.inr ⟨e, List.mem_cons_self _ _, hdir2, heq, rfl, hleads2, hne2⟩
              · rcases ih _ p hp with h | ⟨e2, he2, r2⟩
                · rcases List.mem_append.mp h with h | h
                  · exact Or.inl h
                  · rcases List.mem_singleton.mp h with rfl
                    exact Or.inr ⟨e, List.mem_cons_self _ _, hdir2, heq, rfl, hleads2, hne2⟩
                · exact Or.inr ⟨e2, List.mem_cons_of_mem e he2, r2⟩

theorem fdpLoop_len (parent : List String) (mr : Nat) :
    ∀ (l : List StoredProject) (acc : List (List String × String)),
      acc.length < mr → (fdpLoop parent mr l acc).length ≤ mr := by
  intro l
  induction l with
  | nil =>
      intro acc hacc
      simpa [fdpLoop] using Nat.le_of_lt hacc
  | cons e rest ih =>
      intro acc hacc
      simp only [fdpLoop]
      split
      · exact ih acc hacc
      · split
        · exact ih acc hacc
        · split
          · exact ih acc hacc
          · split
            · exact ih acc hacc
            · split
              · rename_i op heq hl hne hbreak
                have hlen : (acc ++ [(op, e.storage)]).length = acc.length + 1 := by
                  simp
                omega
              · rename_i op heq hl hne hcont
                apply ih
                have hlen : (acc ++ [(op, e.storage)]).length = acc.length + 1 := by
                  simp
                omega

/-- C7 amended: every entry find_descendant_project_paths returns comes from
a stored project directory whose reference file holds a strict descendant
of the resolved parent (never the parent itself); a parent of at most two
path components yields nothing; and the result count is capped by
max_results whenever max_results is at least 1 — the cap is checked only
after appending, so max_results = 0 still lets one entry through (see the
counterexample). -/
theorem find_descendant_contract :
    (∀ projects xdir parent mr,
      ∀ p ∈ find_descendant_project_paths projects xdir parent mr,
        ∃ e ∈ projects, e.is_dir = true ∧ e.ref_path = some p.1 ∧ e.storage = p.2 ∧
          leadsList parent p.1 = true ∧ p.1 ≠ parent) ∧
    (∀ projects xdir parent mr, parent.length ≤ 2 →
      find_descendant_project_paths projects xdir parent mr = []) ∧
    (∀ projects xdir parent mr, 1 ≤ mr →
      (find_descendant_project_paths projects xdir parent mr).length ≤ mr) := by
  refine ⟨?_, ?_, ?_⟩
  · intro projects xdir parent mr p hp
    simp only [find_descendant_project_paths] at hp
    split at hp
    · cases hp
    · split at hp
      · cases hp
      · rcases fdpLoop_mem parent mr projects [] p hp with h | h
        · cases h
        · exact h
  · intro projects xdir parent mr hle
    simp only [find_descendant_project_paths]
    rw [if_pos hle]
  · intro projects xdir parent mr hmr
    simp only [find_descendant_project_paths]
    split
    · simp
    · split
      · simp
      · exact fdpLoop_len parent mr projects [] (by simpa using hmr)

/-- Counterexample to C7 as stated: with max_results = 0 the function still
returns one entry, because the cap is checked only after appending. -/
theorem descendant_cap_zero_overshoot :
    find_descendant_project_paths [descEntry] true ["/", "ws", "studio"] 0 =
      [(["/", "ws", "studio", "db"], "abc123")] ∧
    ¬((find_descendant_project_paths [descEntry] true ["/", "ws", "studio"] 0).length ≤ 0) := by
  exact ⟨rfl, by decide⟩

/-- Witness for the amended C7 at concrete inputs, through the theorem
itself. -/
theorem find_descendant_contract_witness :
    find_descendant_project_paths [descEntry] true ["/", "ws"] 5 = [] ∧
    (find_descendant_project_paths [descEntry] true ["/", "ws", "studio"] 5).length ≤ 5 := by
  have h := find_descendant_contract
  exact ⟨h.2.1 [descEntry] true ["/", "ws"] 5 (by decide),
    h.2.2 [descEntry] true ["/", "ws", "studio"] 5 (by decide)⟩

/-! Claim C2. -/

/-- C2 amended: when old and new scope map to different database files,
set_scope deletes the row from the old file and saves a fresh row into the
new file — with a freshly generated id (new_id), not the original one —
carrying over content, pinned, source and metadata, restamping created_at
and dropping expires_at; afterwards no row of the old file bears the
original id. -/
theorem set_scope_cross_file_fresh_row (s : StoreState) (now : Nat)
    (new_id mid : String) (m : Memory) (pp : String)
    (hget : get_by_id s mid = Except.ok (some m))
    (hpp : s.project_path = some pp) :
    (m.scope = "project" →
      set_scope s now new_id mid "global" none =
        Except.ok ({ s with
          projectDB := s.projectDB.filter (fun r => !(r.id == mid)),
          globalDB := s.globalDB ++ [mkMoved s now new_id m "global" []] },
          some (mkMoved s now new_id m "global" []))) ∧
    ((m.scope == "group" || m.scope == "global") = true →
      set_scope s now new_id mid "project" none =
        Except.ok ({ s with
          globalDB := s.globalDB.filter (fun r => !(r.id == mid)),
          projectDB := s.projectDB ++ [mkMoved s now new_id m "project" []] },
          some (mkMoved s now new_id m "project" []))) ∧
    (∀ g gs, m.scope = "project" →
      set_scope s now new_id mid "group" (some (g :: gs)) =
        Except.ok ({ s with
          projectDB := s.projectDB.filter (fun r => !(r.id == mid)),
          globalDB := s.globalDB ++ [mkMoved s now new_id m "group" (g :: gs)] },
          some (mkMoved s now new_id m "group" (g :: gs)))) ∧
    (∀ sc gs2, (mkMoved s now new_id m sc gs2).id = new_id ∧
      (mkMoved s now new_id m sc gs2).scope = sc ∧
      (mkMoved s now new_id m sc gs2).content = m.content ∧
      (mkMoved s now new_id m sc gs2).pinned = m.pinned ∧
      (mkMoved s now new_id m sc gs2).source = m.source ∧
      (mkMoved s now new_id m sc gs2).metadata = m.metadata ∧
      (mkMoved s now new_id m sc gs2).created_at = now ∧
      (mkMoved s now new_id m sc gs2).expires_at = none) ∧
    (∀ r ∈ s.projectDB.filter (fun r => !(r.id == mid)), r.id ≠ mid) ∧
    (∀ r ∈ s.globalDB.filter (fun r => !(r.id == mid)), r.id ≠ mid) := by
  refine ⟨?_, ?_, ?_, ?_, ?_, ?_⟩
  · intro hsc
    simp only [set_scope, hget, delete, save, getDb, dbFile_for, setDb, hsc, mkMoved]
    simp only [hpp]
    rfl
  · intro hb
    simp only [set_scope, hget, delete, save, getDb, dbFile_for, setDb, hb, mkMoved]
    simp only [hpp]
    rfl
  · intro g gs hsc
    simp only [set_scope, hget, delete, save, getDb, dbFile_for, setDb, hsc,
      groupsGiven, mkMoved]
    simp only [hpp]
    rfl
  · intro sc gs2
    exact ⟨rfl, rfl, rfl, rfl, rfl, rfl, rfl, rfl⟩
  · intro r hr
    have hkept := (List.mem_filter.mp hr).2
    simpa using hkept
  · intro r hr
    have hkept := (List.mem_filter.mp hr).2
    simpa using hkept

/-- Counterexample to C2 as stated: moving the project row to global scope
deletes it from the project file but saves a row under the freshly
generated id mem_000000000051, so the original id is not preserved and
get_by_id with the original id finds nothing afterwards. -/
theorem set_scope_cross_db_new_id :
    set_scope moveStore 9 "mem_000000000051" "mem_000000000050" "global" none =
      Except.ok (movedStore, some movedMem) ∧
    movedMem.id = "mem_000000000051" ∧
    ¬ movedMem.id = "mem_000000000050" ∧
    get_by_id movedStore "mem_000000000050" = Except.ok none := by
  exact ⟨rfl, rfl, by decide, rfl⟩

/-- Witness for the amended C2: the project-to-group move at concrete
inputs, through the theorem itself. -/
theorem set_scope_cross_file_fresh_row_witness :
    set_scope moveStore 9 "mem_000000000052" "mem_000000000050" "group" (some ["team1"]) =
      Except.ok ({ moveStore with
        projectDB := [],
        globalDB := [mkMoved moveStore 9 "mem_000000000052" moveMem "group" ["team1"]] },
        some (mkMoved moveStore 9 "mem_000000000052" moveMem "group" ["team1"])) := by
  have h := set_scope_cross_file_fresh_row moveStore 9 "mem_000000000052"
    "mem_000000000050" moveMem "/ws/app" rfl rfl
  exact h.2.2.1 "team1" [] rfl

end AgentMemory
